import Mathlib

set_option maxRecDepth 100000

/-!
Shallow embedding of `calculate_saturation_from_fragments.py` (single-cell
saturation estimation): the subsampling statistics engine
(`sub_sample_fragments`) and the saturation curve fitter (`fit_MM`).

Conventions of the embedding:
* A polars dataframe of fragments is a `List FragmentRecord`; categorical
  string columns (chromosome, cell barcode) are represented by `ℕ` codes.
* Floating-point numerics are modelled over `ℚ`.
* The random draw `fragments_all_df.sample(frac=...)` is an oracle
  parameter `sample : ℕ → List FragmentRecord` (the argument is the chunk
  index, `k` meaning fraction `k/10`); theorems constrain it by hypotheses
  (e.g. at fraction 1.0 polars returns a permutation of all rows).
* A Python `IndexError` on `np.where(...)[0][0]` is modelled by an
  `Option ℕ` lookup being `none`.
-/

/-- One row of the fragments dataframe: columns `Chromosome`, `Start`,
`End`, `CellBarcode`, `FragmentCount` (source lines 82-98).  `FragmentCount`
is the duplicate count of the fragment. -/
structure FragmentRecord where
  Chromosome : ℕ
  Start : ℕ
  End : ℕ
  CellBarcode : ℕ
  FragmentCount : ℕ
deriving DecidableEq

/-- First-occurrence deduplication, accumulator form (kernel-friendly model
of a polars `groupby` key list). -/
def dedupFirst {α : Type} [DecidableEq α] (acc : List α) : List α → List α
  | [] => acc.reverse
  | b :: rest => if b ∈ acc then dedupFirst acc rest else dedupFirst (b :: acc) rest

/-- The distinct values of a list, keeping first occurrences in order. -/
def uniqueFirst {α : Type} [DecidableEq α] (l : List α) : List α := dedupFirst [] l

/-- Number of fragment records carrying cell barcode `b` — the per-barcode
`pl.col("FragmentCount").count()` aggregation of source lines 134-136. -/
def nbr_frags_per_CBs (df : List FragmentRecord) (b : ℕ) : ℕ :=
  (df.filter (fun r => decide (r.CellBarcode = b))).length

/-- Cell barcodes whose record count strictly exceeds `min_uniq_frag`
(source lines 134-138: `filter(col("nbr_frags_per_CBs") > min_uniq_frag)`). -/
def good_cell_barcodes (df : List FragmentRecord) (min_uniq_frag : ℕ) : List ℕ :=
  (uniqueFirst (df.map (·.CellBarcode))).filter
    (fun b => decide (min_uniq_frag < nbr_frags_per_CBs df b))

/-- The duplicate-expanded population: each record repeated `FragmentCount`
times (source lines 146-150, `repeat_by` + `explode`). -/
def fragments_all (df : List FragmentRecord) : List FragmentRecord :=
  df.flatMap (fun r => List.replicate r.FragmentCount r)

/-- The join of source lines 159-164:
`good_cell_barcodes.join(sampled, on="CellBarcode", how="left")`.
Each good barcode contributes its matching sampled rows; a good barcode
with no matching sampled row contributes a single row whose fragment
fields are null (polars left-join semantics). -/
def left_join_good_bc (goods : List ℕ) (sampled : List FragmentRecord) :
    List (ℕ × Option FragmentRecord) :=
  goods.flatMap (fun b =>
    match sampled.filter (fun r => decide (r.CellBarcode = b)) with
    | [] => [(b, none)]
    | m :: ms => (m :: ms).map (fun r => (b, some r)))

/-- Mean number of joined rows per barcode (source lines 170-176:
group by `CellBarcode`, count, then mean); `none` models the null produced
by aggregating an empty frame. -/
def mean_frag_per_bc (joined : List (ℕ × Option FragmentRecord)) : Option ℚ :=
  let bcs := uniqueFirst (joined.map Prod.fst)
  match bcs with
  | [] => none
  | _ => some
      (((bcs.map (fun b => ((joined.filter (fun row => decide (row.1 = b))).length : ℚ))).sum)
        / (bcs.length : ℚ))

/-- Insert into a sorted list (ascending). -/
def insertSorted (x : ℕ) : List ℕ → List ℕ
  | [] => [x]
  | y :: ys => if x ≤ y then x :: y :: ys else y :: insertSorted x ys

/-- Insertion sort, ascending. -/
def sortNat (l : List ℕ) : List ℕ := l.foldr insertSorted []

/-- Statistical median of a list of naturals as used by polars `.median()`:
middle element for odd length, average of the two middle elements for even
length, null (`none`) for an empty list. -/
def medianNat (l : List ℕ) : Option ℚ :=
  let s := sortNat l
  let n := s.length
  if n = 0 then none
  else if n % 2 = 1 then some ((s.getD (n / 2) 0 : ℕ) : ℚ)
  else some ((((s.getD (n / 2 - 1) 0 : ℕ) : ℚ) + ((s.getD (n / 2) 0 : ℕ) : ℚ)) / 2)

/-- Median over barcodes of the number of distinct
`(CellBarcode, Chromosome, Start, End)` combinations in the joined table
(source lines 179-189).  A null row keeps a null position key. -/
def median_uniq_frag_per_bc (joined : List (ℕ × Option FragmentRecord)) : Option ℚ :=
  let keys := uniqueFirst
    (joined.map (fun row => (row.1, row.2.map (fun r => (r.Chromosome, r.Start, r.End)))))
  let bcs := uniqueFirst (keys.map Prod.fst)
  medianNat (bcs.map (fun b => (keys.filter (fun k => decide (k.1 = b))).length))

/-- One row of the statistics table (the four entries written into
`stats_bucket` for one chunk, source lines 167-193). -/
structure StatsRow where
  mean_frag_per_bc : Option ℚ
  median_uniq_frag_per_bc : Option ℚ
  total_frag_count : ℕ
  cell_barcode_count : ℕ
deriving DecidableEq

/-- The statistics computed for one sampled chunk (loop body of source
lines 152-193): left-join the sample to the good barcodes, then take the
table height as `total_frag_count`, the two per-barcode aggregates, and
the constant good-barcode count. -/
def chunk_row (goods : List ℕ) (sampled : List FragmentRecord) : StatsRow :=
  let joined := left_join_good_bc goods sampled
  ⟨mean_frag_per_bc joined, median_uniq_frag_per_bc joined, joined.length, goods.length⟩

/-- The initial `"chunk 0"` entries of `stats_bucket` (source lines
123-131): every statistic starts at the literal `0`. -/
def chunk_zero_row : StatsRow := ⟨some 0, some 0, 0, 0⟩

/-- The statistics table built by `sub_sample_fragments` (source lines
115-200), keyed by chunk index: the initialisation row `chunk 0` followed
by one row per sampling fraction 0.1 … 1.0 (chunk `k` is fraction `k/10`;
`sample k` stands for `fragments_all_df.sample(frac=k/10)`). -/
def sub_sample_fragments (df : List FragmentRecord) (min_uniq_frag : ℕ)
    (sample : ℕ → List FragmentRecord) : List (ℕ × StatsRow) :=
  let goods := good_cell_barcodes df min_uniq_frag
  (0, chunk_zero_row) :: (List.range 10).map (fun k => (k + 1, chunk_row goods (sample (k + 1))))

/-- The Michaelis-Menten model of source lines 103-111: `Vmax*x/(Km+x)`
when both parameters are positive, the sentinel `1e10` otherwise. -/
def MM (x Vmax Km : ℚ) : ℚ :=
  if 0 < Vmax ∧ 0 < Km then Vmax * x / (Km + x) else 1e10

/-- Python's `max` over a list of rationals (the lists it is applied to are
nonempty; the `[]` case value is irrelevant). -/
def maxQ : List ℚ → ℚ
  | [] => 0
  | x :: xs => xs.foldl max x

/-- The dense extrapolation grid `np.linspace(0, M, num=500)` of source
line 217, where `M` stands for `int(np.max(x_data) * 100)`. -/
def x_fit (M : ℚ) : List ℚ := (List.range 500).map (fun i : ℕ => M * (i : ℚ) / 499)

/-- The fitted curve sampled on the extrapolation grid (source line 218). -/
def y_fit_grid (M Vmax Km : ℚ) : List ℚ := (x_fit M).map (fun x => MM x Vmax Km)

/-- The 95%-of-Vmax truncation of source lines 219-225: when the curve's
maximum strictly exceeds `Vmax*0.95`, both the grid and the curve are cut
to the indices strictly before the first index whose curve value is at
least `Vmax*0.95`; otherwise both are left whole. -/
def truncate95 (xF yF : List ℚ) (Vmax : ℚ) : List ℚ × List ℚ :=
  let y_val := Vmax * 0.95
  if y_val < maxQ yF then
    let c := yF.findIdx (fun y => decide (y_val ≤ y))
    (xF.take c, yF.take c)
  else (xF, yF)

/-- The per-percentage inversion of source lines 246-253: if the curve's
maximum strictly exceeds `Vmax*perc`, return the `(x, y)` pair at the first
index whose curve value is at least `Vmax*perc`; otherwise skip (`none`). -/
def fit_MM_percentage (xF yF : List ℚ) (Vmax perc : ℚ) : Option (ℚ × ℚ) :=
  let y_val := Vmax * perc
  if y_val < maxQ yF then
    let i := yF.findIdx (fun y => decide (y_val ≤ y))
    some (xF.getD i 0, yF.getD i 0)
  else none

/-- The full post-fit lookup pipeline of `fit_MM` for one requested
percentage: build the grid and curve for fitted parameters `(Vmax, Km)`,
apply the 95% truncation, then invert the percentage on the truncated
curve. -/
def fit_MM_lookup (M Vmax Km perc : ℚ) : Option (ℚ × ℚ) :=
  let xy := truncate95 (x_fit M) (y_fit_grid M Vmax Km) Vmax
  fit_MM_percentage xy.1 xy.2 Vmax perc

/-- The "current saturation" marker lookup of source line 231,
`np.where(y_fit >= max(y_data))[0][0]`, applied to the (possibly
truncated) curve; `none` models the unguarded `IndexError`. -/
def current_saturation_idx (yF : List ℚ) (y_data_max : ℚ) : Option ℕ :=
  yF.findIdx? (fun y => decide (y_data_max ≤ y))

/-- The scenario population of the spec's testable properties: three
barcodes with 5, 250 and 300 distinct fragment records respectively, each
with duplicate count 1. -/
def example_pop : List FragmentRecord :=
  (List.range 5).map (fun i => ⟨0, i, i + 50, 1, 1⟩)
    ++ (List.range 250).map (fun i => ⟨0, i, i + 50, 2, 1⟩)
    ++ (List.range 300).map (fun i => ⟨0, i, i + 50, 3, 1⟩)

/-- A tiny population: two distinct fragment records of barcode 1, each
with duplicate count 1. -/
def two_record_pop : List FragmentRecord := [⟨0, 0, 50, 1, 1⟩, ⟨0, 1, 51, 1, 1⟩]

/-- A population with one record of barcode 1 of duplicate count 2 and one
record of barcode 1 of duplicate count 1. -/
def dup_pop : List FragmentRecord := [⟨0, 0, 50, 1, 2⟩, ⟨0, 1, 51, 1, 1⟩]

/-- A single-record population (barcode 1, duplicate count 1). -/
def one_record_pop : List FragmentRecord := [⟨0, 0, 50, 1, 1⟩]

lemma mem_dedupFirst {α : Type} [DecidableEq α] (l : List α) :
    ∀ (acc : List α) (a : α), a ∈ dedupFirst acc l ↔ a ∈ acc ∨ a ∈ l := by
  induction l with
  | nil => intro acc a; simp [dedupFirst]
  | cons b rest ih =>
    intro acc a
    by_cases hb : b ∈ acc
    · rw [dedupFirst, if_pos hb, ih]
      constructor
      · rintro (h | h)
        · exact Or.inl h
        · exact Or.inr (List.mem_cons_of_mem _ h)
      · rintro (h | h)
        · exact Or.inl h
        · rcases List.mem_cons.mp h with rfl | h
          · exact Or.inl hb
          · exact Or.inr h
    · rw [dedupFirst, if_neg hb, ih]
      simp only [List.mem_cons]
      tauto

lemma mem_uniqueFirst {α : Type} [DecidableEq α] (l : List α) (a : α) :
    a ∈ uniqueFirst l ↔ a ∈ l := by
  rw [uniqueFirst, mem_dedupFirst]
  simp

lemma nodup_dedupFirst {α : Type} [DecidableEq α] (l : List α) :
    ∀ acc : List α, acc.Nodup → (dedupFirst acc l).Nodup := by
  induction l with
  | nil => intro acc h; rw [dedupFirst]; exact List.nodup_reverse.mpr h
  | cons b rest ih =>
    intro acc h
    by_cases hb : b ∈ acc
    · rw [dedupFirst, if_pos hb]; exact ih acc h
    · rw [dedupFirst, if_neg hb]; exact ih _ (List.nodup_cons.mpr ⟨hb, h⟩)

lemma nodup_uniqueFirst {α : Type} [DecidableEq α] (l : List α) : (uniqueFirst l).Nodup :=
  nodup_dedupFirst l [] List.nodup_nil

lemma le_foldl_max (xs : List ℚ) : ∀ a : ℚ, a ≤ xs.foldl max a ∧ ∀ y ∈ xs, y ≤ xs.foldl max a := by
  induction xs with
  | nil => intro a; simp
  | cons x xs ih =>
    intro a
    have h1 := (ih (max a x)).1
    refine ⟨le_trans (le_max_left a x) h1, ?_⟩
    intro y hy
    rcases List.mem_cons.mp hy with rfl | hy
    · exact le_trans (le_max_right a y) h1
    · exact (ih (max a x)).2 y hy

lemma foldl_max_mem (xs : List ℚ) : ∀ a : ℚ, xs.foldl max a = a ∨ xs.foldl max a ∈ xs := by
  induction xs with
  | nil => intro a; simp
  | cons x xs ih =>
    intro a
    rcases ih (max a x) with h | h
    · rcases max_choice a x with hm | hm
      · exact Or.inl (by rw [List.foldl_cons, h, hm])
      · exact Or.inr (by rw [List.foldl_cons, h, hm]; exact List.mem_cons_self x xs)
    · exact Or.inr (List.mem_cons_of_mem _ h)

lemma le_maxQ {l : List ℚ} {y : ℚ} (h : y ∈ l) : y ≤ maxQ l := by
  cases l with
  | nil => cases h
  | cons x xs =>
    rcases List.mem_cons.mp h with rfl | h
    · exact (le_foldl_max xs y).1
    · exact (le_foldl_max xs x).2 y h

lemma maxQ_mem {l : List ℚ} (h : l ≠ []) : maxQ l ∈ l := by
  cases l with
  | nil => exact absurd rfl h
  | cons x xs =>
    rcases foldl_max_mem xs x with h1 | h1
    · rw [maxQ, h1]; exact List.mem_cons_self x xs
    · exact List.mem_cons_of_mem _ h1

lemma maxQ_le {l : List ℚ} {a : ℚ} (hne : l ≠ []) (h : ∀ y ∈ l, y ≤ a) : maxQ l ≤ a :=
  h _ (maxQ_mem hne)

lemma maxQ_lt {l : List ℚ} {a : ℚ} (hne : l ≠ []) (h : ∀ y ∈ l, y < a) : maxQ l < a :=
  h _ (maxQ_mem hne)

lemma mem_take_getD {l : List ℚ} {c : ℕ} {y : ℚ} (h : y ∈ l.take c) :
    ∃ j, j < c ∧ j < l.length ∧ y = l.getD j 0 := by
  obtain ⟨j, hj, hy⟩ := List.getElem_of_mem h
  have hlen := hj
  rw [List.length_take, lt_min_iff] at hlen
  refine ⟨j, hlen.1, hlen.2, ?_⟩
  rw [List.getD_eq_getElem l 0 hlen.2, ← hy, List.getElem_take]

lemma getD_take {l : List ℚ} {c j : ℕ} (hj : j < c) (hl : j < l.length) :
    (l.take c).getD j 0 = l.getD j 0 := by
  have hlen : j < (l.take c).length := by
    rw [List.length_take, lt_min_iff]; exact ⟨hj, hl⟩
  rw [List.getD_eq_getElem _ 0 hlen, List.getD_eq_getElem l 0 hl, List.getElem_take]

lemma x_fit_length (M : ℚ) : (x_fit M).length = 500 := by
  rw [x_fit, List.length_map, List.length_range]

lemma y_fit_length (M Vmax Km : ℚ) : (y_fit_grid M Vmax Km).length = 500 := by
  rw [y_fit_grid, List.length_map, x_fit_length]

lemma x_fit_getD (M : ℚ) {i : ℕ} (h : i < 500) : (x_fit M).getD i 0 = M * i / 499 := by
  have hl : i < (x_fit M).length := by rw [x_fit_length]; exact h
  rw [List.getD_eq_getElem _ 0 hl]
  simp only [x_fit, List.getElem_map, List.getElem_range]

lemma y_fit_getD (M Vmax Km : ℚ) {i : ℕ} (h : i < 500) :
    (y_fit_grid M Vmax Km).getD i 0 = MM (M * i / 499) Vmax Km := by
  have hl : i < (y_fit_grid M Vmax Km).length := by rw [y_fit_length]; exact h
  rw [List.getD_eq_getElem _ 0 hl]
  simp only [y_fit_grid, x_fit, List.getElem_map, List.getElem_range]

lemma mem_y_fit {M Vmax Km y : ℚ} (h : y ∈ y_fit_grid M Vmax Km) :
    ∃ i : ℕ, i < 500 ∧ y = MM (M * (i : ℚ) / 499) Vmax Km := by
  simp only [y_fit_grid, x_fit, List.map_map, List.mem_map, List.mem_range] at h
  obtain ⟨i, hi, rfl⟩ := h
  exact ⟨i, hi, rfl⟩

lemma MM_of_pos {Vmax Km : ℚ} (x : ℚ) (hV : 0 < Vmax) (hK : 0 < Km) :
    MM x Vmax Km = Vmax * x / (Km + x) := by
  rw [MM, if_pos ⟨hV, hK⟩]

lemma MM_of_nonpos {Vmax Km : ℚ} (x : ℚ) (h : Vmax ≤ 0 ∨ Km ≤ 0) :
    MM x Vmax Km = 1e10 := by
  rw [MM, if_neg]
  rintro ⟨hV, hK⟩
  rcases h with h | h
  · exact absurd hV (not_lt.mpr h)
  · exact absurd hK (not_lt.mpr h)

lemma MM_zero {Vmax Km : ℚ} (hV : 0 < Vmax) (hK : 0 < Km) : MM 0 Vmax Km = 0 := by
  rw [MM_of_pos 0 hV hK, mul_zero, zero_div]

lemma MM_le_MM {Vmax Km : ℚ} (hV : 0 < Vmax) (hK : 0 < Km) {x x' : ℚ}
    (hx : 0 ≤ x) (hxx : x ≤ x') : MM x Vmax Km ≤ MM x' Vmax Km := by
  rw [MM_of_pos x hV hK, MM_of_pos x' hV hK]
  have h1 : 0 < Km + x := by linarith
  have h2 : 0 < Km + x' := by linarith
  rw [div_le_div_iff₀ h1 h2]
  nlinarith [mul_nonneg (mul_pos hV hK).le (sub_nonneg.mpr hxx)]

lemma MM_lt_MM {Vmax Km : ℚ} (hV : 0 < Vmax) (hK : 0 < Km) {x x' : ℚ}
    (hx : 0 ≤ x) (hxx : x < x') : MM x Vmax Km < MM x' Vmax Km := by
  rw [MM_of_pos x hV hK, MM_of_pos x' hV hK]
  have h1 : 0 < Km + x := by linarith
  have h2 : 0 < Km + x' := by linarith
  rw [div_lt_div_iff₀ h1 h2]
  nlinarith [mul_pos (mul_pos hV hK) (sub_pos.mpr hxx)]

lemma MM_lt_Vmax {Vmax Km : ℚ} (hV : 0 < Vmax) (hK : 0 < Km) {x : ℚ} (hx : 0 ≤ x) :
    MM x Vmax Km < Vmax := by
  rw [MM_of_pos x hV hK]
  have h1 : 0 < Km + x := by linarith
  rw [div_lt_iff₀ h1]
  nlinarith [mul_pos hV hK]

lemma grid_point_nonneg {M : ℚ} (hM : 0 ≤ M) (i : ℕ) : 0 ≤ M * i / 499 :=
  div_nonneg (mul_nonneg hM (Nat.cast_nonneg i)) (by norm_num)

lemma grid_point_le_M {M : ℚ} (hM : 0 ≤ M) {i : ℕ} (hi : i < 500) : M * i / 499 ≤ M := by
  rw [div_le_iff₀ (by norm_num : (0:ℚ) < 499)]
  have hc : (i : ℚ) ≤ 499 := by exact_mod_cast Nat.lt_succ_iff.mp hi
  nlinarith

lemma y_fit_mem_lt_Vmax {M Vmax Km : ℚ} (hV : 0 < Vmax) (hK : 0 < Km) (hM : 0 ≤ M) :
    ∀ y ∈ y_fit_grid M Vmax Km, y < Vmax := by
  intro y hy
  obtain ⟨i, _, rfl⟩ := mem_y_fit hy
  exact MM_lt_Vmax hV hK (grid_point_nonneg hM _)

lemma y_fit_mem_le_MM_M {M Vmax Km : ℚ} (hV : 0 < Vmax) (hK : 0 < Km) (hM : 0 ≤ M) :
    ∀ y ∈ y_fit_grid M Vmax Km, y ≤ MM M Vmax Km := by
  intro y hy
  obtain ⟨i, hi, rfl⟩ := mem_y_fit hy
  exact MM_le_MM hV hK (grid_point_nonneg hM _) (grid_point_le_M hM hi)

lemma grid_point_mono {M : ℚ} (hM : 0 ≤ M) {i j : ℕ} (hij : i ≤ j) :
    M * (i : ℚ) / 499 ≤ M * (j : ℚ) / 499 := by
  have hc : (i : ℚ) ≤ (j : ℚ) := by exact_mod_cast hij
  rw [div_le_div_iff₀ (by norm_num : (0:ℚ) < 499) (by norm_num : (0:ℚ) < 499)]
  nlinarith [mul_le_mul_of_nonneg_left hc hM]

lemma findIdx_getD_of_lt {l : List ℚ} {p : ℚ → Bool} (h : l.findIdx p < l.length) :
    p (l.getD (l.findIdx p) 0) = true := by
  rw [List.getD_eq_getElem l 0 h]
  exact List.findIdx_getElem

lemma findIdx_getD_lt_false {l : List ℚ} {p : ℚ → Bool} {j : ℕ} (hj : j < l.findIdx p)
    (hl : j < l.length) : p (l.getD j 0) = false := by
  rw [List.getD_eq_getElem l 0 hl]
  exact List.not_of_lt_findIdx hj

lemma findIdx_pos_of_head {l : List ℚ} {p : ℚ → Bool} (hne : l ≠ [])
    (h : p (l.getD 0 0) = false) : 0 < l.findIdx p := by
  cases l with
  | nil => exact absurd rfl hne
  | cons a t =>
    simp only [List.getD_cons_zero] at h
    rw [List.findIdx_cons, h, cond_false]
    omega

lemma take_ne_nil_of_pos {l : List ℚ} {c : ℕ} (hc : 0 < c) (hne : l ≠ []) : l.take c ≠ [] := by
  cases l with
  | nil => exact absurd rfl hne
  | cons a t =>
    cases c with
    | zero => omega
    | succ c => simp

lemma truncate95_of_le (xF yF : List ℚ) (Vmax : ℚ) (h : ¬ (Vmax * 0.95 < maxQ yF)) :
    truncate95 xF yF Vmax = (xF, yF) := by
  simp only [truncate95]
  rw [if_neg h]

lemma truncate95_of_lt (xF yF : List ℚ) (Vmax : ℚ) (h : Vmax * 0.95 < maxQ yF) :
    truncate95 xF yF Vmax
      = (xF.take (yF.findIdx (fun y => decide (Vmax * 0.95 ≤ y))),
          yF.take (yF.findIdx (fun y => decide (Vmax * 0.95 ≤ y)))) := by
  simp only [truncate95]
  rw [if_pos h]

lemma mem_truncate95_snd_lt {xF yF : List ℚ} {Vmax : ℚ} (h : Vmax * 0.95 < maxQ yF) :
    ∀ y ∈ (truncate95 xF yF Vmax).2, y < Vmax * 0.95 := by
  rw [truncate95_of_lt xF yF Vmax h]
  intro y hy
  obtain ⟨j, hjc, hjl, rfl⟩ := mem_take_getD hy
  have hnot := findIdx_getD_lt_false hjc hjl
  simp only [decide_eq_false_iff_not, not_le] at hnot
  exact hnot

lemma mem_truncate95_snd {xF yF : List ℚ} {Vmax y : ℚ}
    (hy : y ∈ (truncate95 xF yF Vmax).2) : y ∈ yF := by
  by_cases h : Vmax * 0.95 < maxQ yF
  · rw [truncate95_of_lt xF yF Vmax h] at hy
    exact List.take_subset _ _ hy
  · rw [truncate95_of_le xF yF Vmax h] at hy
    exact hy

lemma truncate95_eq_take (xF yF : List ℚ) (Vmax : ℚ) :
    ∃ c, truncate95 xF yF Vmax = (xF.take c, yF.take c) := by
  by_cases h : Vmax * 0.95 < maxQ yF
  · exact ⟨_, truncate95_of_lt xF yF Vmax h⟩
  · refine ⟨max xF.length yF.length, ?_⟩
    rw [truncate95_of_le xF yF Vmax h, List.take_of_length_le (le_max_left _ _),
      List.take_of_length_le (le_max_right _ _)]

lemma y_fit_ne_nil (M Vmax Km : ℚ) : y_fit_grid M Vmax Km ≠ [] := by
  intro h
  have := y_fit_length M Vmax Km
  rw [h] at this
  simp at this

lemma truncate95_y_ne_nil {M Vmax Km : ℚ} (hV : 0 < Vmax) (hK : 0 < Km) :
    (truncate95 (x_fit M) (y_fit_grid M Vmax Km) Vmax).2 ≠ [] := by
  by_cases h : Vmax * 0.95 < maxQ (y_fit_grid M Vmax Km)
  · rw [truncate95_of_lt _ _ _ h]
    apply take_ne_nil_of_pos _ (y_fit_ne_nil M Vmax Km)
    apply findIdx_pos_of_head (y_fit_ne_nil M Vmax Km)
    have h0 : (y_fit_grid M Vmax Km).getD 0 0 = 0 := by
      rw [y_fit_getD M Vmax Km (by norm_num : (0:ℕ) < 500)]
      rw [show M * ((0:ℕ):ℚ) / 499 = 0 by norm_num]
      exact MM_zero hV hK
    rw [h0]
    simp only [decide_eq_false_iff_not, not_le]
    nlinarith
  · rw [truncate95_of_le _ _ _ h]
    exact y_fit_ne_nil M Vmax Km

lemma fit_MM_percentage_none {xF yF : List ℚ} {Vmax perc : ℚ}
    (h : ¬ (Vmax * perc < maxQ yF)) : fit_MM_percentage xF yF Vmax perc = none := by
  simp only [fit_MM_percentage]
  rw [if_neg h]

lemma fit_MM_percentage_some {xF yF : List ℚ} {Vmax perc x y : ℚ} (hne : yF ≠ [])
    (h : fit_MM_percentage xF yF Vmax perc = some (x, y)) :
    ∃ i, i < yF.length ∧ x = xF.getD i 0 ∧ y = yF.getD i 0 ∧ Vmax * perc ≤ y ∧
      ∀ j, j < i → yF.getD j 0 < Vmax * perc := by
  by_cases hg : Vmax * perc < maxQ yF
  · simp only [fit_MM_percentage] at h
    rw [if_pos hg] at h
    simp only [Option.some.injEq, Prod.mk.injEq] at h
    obtain ⟨hx, hy⟩ := h
    have hlt : yF.findIdx (fun w => decide (Vmax * perc ≤ w)) < yF.length := by
      apply List.findIdx_lt_length_of_exists
      exact ⟨maxQ yF, maxQ_mem hne, by simp only [decide_eq_true_eq]; exact le_of_lt hg⟩
    refine ⟨yF.findIdx (fun w => decide (Vmax * perc ≤ w)), hlt, hx.symm, hy.symm, ?_, ?_⟩
    · have hp := findIdx_getD_of_lt hlt
      simp only [decide_eq_true_eq] at hp
      rw [← hy]
      exact hp
    · intro j hj
      have hp := findIdx_getD_lt_false hj (lt_trans hj hlt)
      simp only [decide_eq_false_iff_not, not_le] at hp
      exact hp
  · rw [fit_MM_percentage_none hg] at h
    simp at h

lemma fit_MM_lookup_none_of_max_le {M Vmax Km perc : ℚ}
    (h : maxQ ((truncate95 (x_fit M) (y_fit_grid M Vmax Km) Vmax).2) ≤ Vmax * perc) :
    fit_MM_lookup M Vmax Km perc = none := by
  simp only [fit_MM_lookup]
  exact fit_MM_percentage_none (not_lt.mpr h)

lemma fit_MM_lookup_none_of_ge95 {M Vmax Km perc : ℚ} (hV : 0 < Vmax) (hK : 0 < Km)
    (hp : 0.95 ≤ perc) : fit_MM_lookup M Vmax Km perc = none := by
  apply fit_MM_lookup_none_of_max_le
  have hmul : Vmax * 0.95 ≤ Vmax * perc := by nlinarith
  by_cases h : Vmax * 0.95 < maxQ (y_fit_grid M Vmax Km)
  · exact maxQ_le (truncate95_y_ne_nil hV hK)
      (fun y hy => le_of_lt (lt_of_lt_of_le (mem_truncate95_snd_lt h y hy) hmul))
  · have h2 : (truncate95 (x_fit M) (y_fit_grid M Vmax Km) Vmax).2 = y_fit_grid M Vmax Km := by
      rw [truncate95_of_le _ _ _ h]
    rw [h2]
    exact le_trans (not_lt.mp h) hmul

lemma fit_MM_lookup_none_of_never {M Vmax Km perc : ℚ} (hV : 0 < Vmax) (hK : 0 < Km)
    (h : ∀ y ∈ y_fit_grid M Vmax Km, y < Vmax * perc) : fit_MM_lookup M Vmax Km perc = none := by
  apply fit_MM_lookup_none_of_max_le
  apply le_of_lt
  apply maxQ_lt (truncate95_y_ne_nil hV hK)
  intro y hy
  exact h y (mem_truncate95_snd hy)

lemma fit_MM_lookup_some_spec {M Vmax Km perc x y : ℚ} (hV : 0 < Vmax) (hK : 0 < Km) (hM : 0 ≤ M)
    (h : fit_MM_lookup M Vmax Km perc = some (x, y)) :
    ∃ i : ℕ, i < 500 ∧ x = M * (i : ℚ) / 499 ∧ y = MM x Vmax Km ∧ Vmax * perc ≤ y ∧
      ∀ j : ℕ, j < 500 → Vmax * perc ≤ MM (M * (j : ℚ) / 499) Vmax Km →
        x ≤ M * (j : ℚ) / 499 := by
  obtain ⟨c, hc⟩ := truncate95_eq_take (x_fit M) (y_fit_grid M Vmax Km) Vmax
  have hne0 : (truncate95 (x_fit M) (y_fit_grid M Vmax Km) Vmax).2 ≠ [] :=
    truncate95_y_ne_nil hV hK
  rw [hc] at hne0
  have hne' : (y_fit_grid M Vmax Km).take c ≠ [] := hne0
  simp only [fit_MM_lookup] at h
  rw [hc] at h
  have h' : fit_MM_percentage ((x_fit M).take c) ((y_fit_grid M Vmax Km).take c) Vmax perc
      = some (x, y) := h
  obtain ⟨i, hilen, hx, hy, hge, hmin⟩ := fit_MM_percentage_some hne' h'
  have hic : i < c := by
    rw [List.length_take] at hilen
    exact lt_of_lt_of_le hilen (min_le_left _ _)
  have hi500 : i < 500 := by
    rw [List.length_take, y_fit_length] at hilen
    exact lt_of_lt_of_le hilen (min_le_right _ _)
  have hxi : x = M * (i : ℚ) / 499 := by
    rw [hx, getD_take hic (by rw [x_fit_length]; exact hi500), x_fit_getD M hi500]
  have hyi : y = MM (M * (i : ℚ) / 499) Vmax Km := by
    rw [hy, getD_take hic (by rw [y_fit_length]; exact hi500), y_fit_getD M Vmax Km hi500]
  refine ⟨i, hi500, hxi, by rw [hyi, hxi], hge, ?_⟩
  intro j hj500 hjge
  by_cases hij : j < i
  · exfalso
    have hjc : j < c := lt_trans hij hic
    have hmj := hmin j hij
    rw [getD_take hjc (by rw [y_fit_length]; exact hj500), y_fit_getD M Vmax Km hj500] at hmj
    exact absurd hjge (not_le.mpr hmj)
  · rw [hxi]
    exact grid_point_mono hM (le_of_not_lt hij)

lemma exists_record_of_pos_count {df : List FragmentRecord} {b : ℕ}
    (h : 0 < nbr_frags_per_CBs df b) : ∃ r ∈ df, r.CellBarcode = b := by
  rw [nbr_frags_per_CBs] at h
  obtain ⟨r, hr⟩ := List.exists_mem_of_length_pos h
  rw [List.mem_filter] at hr
  exact ⟨r, hr.1, of_decide_eq_true hr.2⟩

lemma mem_good_cell_barcodes (df : List FragmentRecord) (t b : ℕ) :
    b ∈ good_cell_barcodes df t ↔ t < nbr_frags_per_CBs df b := by
  rw [good_cell_barcodes, List.mem_filter]
  constructor
  · intro h
    exact of_decide_eq_true h.2
  · intro h
    refine ⟨?_, decide_eq_true h⟩
    obtain ⟨r, hr, hrb⟩ := exists_record_of_pos_count (lt_of_le_of_lt (Nat.zero_le t) h)
    rw [mem_uniqueFirst]
    exact List.mem_map.mpr ⟨r, hr, hrb⟩

lemma nodup_good_cell_barcodes (df : List FragmentRecord) (t : ℕ) :
    (good_cell_barcodes df t).Nodup :=
  List.Nodup.filter _ (nodup_uniqueFirst _)

lemma left_join_nil_left (sampled : List FragmentRecord) :
    left_join_good_bc [] sampled = [] := rfl

lemma left_join_cons (b : ℕ) (goods : List ℕ) (sampled : List FragmentRecord) :
    left_join_good_bc (b :: goods) sampled
      = (match sampled.filter (fun r => decide (r.CellBarcode = b)) with
          | [] => [(b, none)]
          | m :: ms => (m :: ms).map (fun r => (b, some r))) ++ left_join_good_bc goods sampled := by
  simp only [left_join_good_bc, List.flatMap_cons]

lemma filter_mem_cons_length (b : ℕ) (gs : List ℕ) (hb : b ∉ gs)
    (sampled : List FragmentRecord) :
    (sampled.filter (fun r => decide (r.CellBarcode ∈ b :: gs))).length
      = (sampled.filter (fun r => decide (r.CellBarcode = b))).length
        + (sampled.filter (fun r => decide (r.CellBarcode ∈ gs))).length := by
  induction sampled with
  | nil => simp
  | cons r rs ih =>
    simp only [List.filter_cons]
    by_cases h1 : r.CellBarcode = b
    · have h2 : r.CellBarcode ∉ gs := by rw [h1]; exact hb
      have hm : r.CellBarcode ∈ b :: gs := by rw [h1]; exact List.mem_cons_self b gs
      rw [if_pos (decide_eq_true hm), if_pos (decide_eq_true h1),
        if_neg (by simp only [decide_eq_true_eq]; exact h2)]
      simp only [List.length_cons]
      omega
    · by_cases h2 : r.CellBarcode ∈ gs
      · have hm : r.CellBarcode ∈ b :: gs := List.mem_cons_of_mem b h2
        rw [if_pos (decide_eq_true hm), if_pos (decide_eq_true h2),
          if_neg (by simp only [decide_eq_true_eq]; exact h1)]
        simp only [List.length_cons]
        omega
      · have hm : r.CellBarcode ∉ b :: gs := by
          rw [List.mem_cons]
          rintro (h | h)
          · exact h1 h
          · exact h2 h
        rw [if_neg (by simp only [decide_eq_true_eq]; exact hm),
          if_neg (by simp only [decide_eq_true_eq]; exact h1),
          if_neg (by simp only [decide_eq_true_eq]; exact h2)]
        exact ih

lemma left_join_length (sampled : List FragmentRecord) :
    ∀ goods : List ℕ, goods.Nodup → (∀ b ∈ goods, ∃ r ∈ sampled, r.CellBarcode = b) →
      (left_join_good_bc goods sampled).length
        = (sampled.filter (fun r => decide (r.CellBarcode ∈ goods))).length := by
  intro goods
  induction goods with
  | nil => intro _ _; simp [left_join_nil_left]
  | cons b gs ih =>
    intro hnd hall
    have hb : b ∉ gs := (List.nodup_cons.mp hnd).1
    obtain ⟨r0, hr0, hr0b⟩ := hall b (List.mem_cons_self b gs)
    rw [left_join_cons, List.length_append,
      ih (List.nodup_cons.mp hnd).2 (fun b' hb' => hall b' (List.mem_cons_of_mem b hb')),
      filter_mem_cons_length b gs hb sampled]
    have hne : sampled.filter (fun r => decide (r.CellBarcode = b)) ≠ [] := by
      intro hnil
      rw [List.filter_eq_nil_iff] at hnil
      exact hnil r0 hr0 (decide_eq_true hr0b)
    cases hf : sampled.filter (fun r => decide (r.CellBarcode = b)) with
    | nil => exact absurd hf hne
    | cons m ms =>
      simp only [List.length_map, List.length_cons]

lemma fragments_all_filter_length (q : FragmentRecord → Bool) (df : List FragmentRecord) :
    ((fragments_all df).filter q).length = ((df.filter q).map (·.FragmentCount)).sum := by
  induction df with
  | nil => simp [fragments_all]
  | cons r rs ih =>
    rw [fragments_all, List.flatMap_cons, List.filter_append, List.length_append]
    rw [show (rs.flatMap (fun r => List.replicate r.FragmentCount r)) = fragments_all rs from rfl]
    rw [ih, List.filter_cons]
    by_cases hq : q r = true
    · rw [if_pos hq, List.filter_replicate, if_pos hq]
      simp only [List.map_cons, List.sum_cons, List.length_replicate]
    · rw [if_neg hq, List.filter_replicate, if_neg hq]
      simp only [List.length_nil]
      omega

lemma good_barcode_has_sampled_record {df sampled : List FragmentRecord} {t : ℕ}
    (hperm : sampled.Perm (fragments_all df)) (hcnt : ∀ r ∈ df, 1 ≤ r.FragmentCount) :
    ∀ b ∈ good_cell_barcodes df t, ∃ r ∈ sampled, r.CellBarcode = b := by
  intro b hb
  rw [mem_good_cell_barcodes] at hb
  obtain ⟨r, hr, hrb⟩ := exists_record_of_pos_count (lt_of_le_of_lt (Nat.zero_le t) hb)
  refine ⟨r, ?_, hrb⟩
  rw [hperm.mem_iff, fragments_all, List.mem_flatMap]
  exact ⟨r, hr, List.mem_replicate.mpr ⟨Nat.one_le_iff_ne_zero.mp (hcnt r hr), rfl⟩⟩

lemma left_join_perm_length {df sampled : List FragmentRecord} {t : ℕ}
    (hperm : sampled.Perm (fragments_all df)) (hcnt : ∀ r ∈ df, 1 ≤ r.FragmentCount) :
    (left_join_good_bc (good_cell_barcodes df t) sampled).length
      = ((df.filter (fun r => decide (r.CellBarcode ∈ good_cell_barcodes df t))).map
          (·.FragmentCount)).sum := by
  rw [left_join_length sampled (good_cell_barcodes df t) (nodup_good_cell_barcodes df t)
    (good_barcode_has_sampled_record hperm hcnt)]
  rw [← List.countP_eq_length_filter, hperm.countP_eq, List.countP_eq_length_filter]
  exact fragments_all_filter_length _ df

lemma left_join_some_mem {goods : List ℕ} {sampled : List FragmentRecord}
    {b : ℕ} {r : FragmentRecord} (h : (b, some r) ∈ left_join_good_bc goods sampled) :
    b ∈ goods ∧ r ∈ sampled ∧ r.CellBarcode = b := by
  rw [left_join_good_bc, List.mem_flatMap] at h
  obtain ⟨b', hb', hmem⟩ := h
  cases hf : sampled.filter (fun s => decide (s.CellBarcode = b')) with
  | nil =>
    rw [hf] at hmem
    simp at hmem
  | cons m ms =>
    rw [hf] at hmem
    rw [List.mem_map] at hmem
    obtain ⟨r', hr', heq⟩ := hmem
    simp only [Prod.mk.injEq, Option.some.injEq] at heq
    obtain ⟨rfl, rfl⟩ := heq
    rw [← hf] at hr'
    rw [List.mem_filter] at hr'
    exact ⟨hb', hr'.1, of_decide_eq_true hr'.2⟩

lemma left_join_some_of_mem {goods : List ℕ} {sampled : List FragmentRecord}
    {r : FragmentRecord} (hr : r ∈ sampled) (hb : r.CellBarcode ∈ goods) :
    (r.CellBarcode, some r) ∈ left_join_good_bc goods sampled := by
  rw [left_join_good_bc, List.mem_flatMap]
  refine ⟨r.CellBarcode, hb, ?_⟩
  have hrf : r ∈ sampled.filter (fun s => decide (s.CellBarcode = r.CellBarcode)) :=
    List.mem_filter.mpr ⟨hr, decide_eq_true rfl⟩
  cases hf : sampled.filter (fun s => decide (s.CellBarcode = r.CellBarcode)) with
  | nil =>
    rw [hf] at hrf
    cases hrf
  | cons m ms =>
    rw [hf] at hrf
    exact List.mem_map.mpr ⟨r, hrf, rfl⟩

lemma left_join_none_mem {goods : List ℕ} {sampled : List FragmentRecord} {b : ℕ}
    (h : (b, (none : Option FragmentRecord)) ∈ left_join_good_bc goods sampled) :
    b ∈ goods ∧ ∀ r ∈ sampled, r.CellBarcode ≠ b := by
  rw [left_join_good_bc, List.mem_flatMap] at h
  obtain ⟨b', hb', hmem⟩ := h
  cases hf : sampled.filter (fun s => decide (s.CellBarcode = b')) with
  | nil =>
    rw [hf] at hmem
    simp only [List.mem_singleton, Prod.mk.injEq] at hmem
    obtain ⟨rfl, -⟩ := hmem
    rw [List.filter_eq_nil_iff] at hf
    refine ⟨hb', ?_⟩
    intro r hr hrb
    exact hf r hr (decide_eq_true hrb)
  | cons m ms =>
    rw [hf] at hmem
    rw [List.mem_map] at hmem
    obtain ⟨r', -, heq⟩ := hmem
    simp at heq

lemma sub_sample_length (df : List FragmentRecord) (t : ℕ) (sample : ℕ → List FragmentRecord) :
    (sub_sample_fragments df t sample).length = 11 := by
  rw [sub_sample_fragments]
  simp

lemma sub_sample_keys (df : List FragmentRecord) (t : ℕ) (sample : ℕ → List FragmentRecord) :
    (sub_sample_fragments df t sample).map Prod.fst = [0, 1, 2, 3, 4, 5, 6, 7, 8, 9, 10] := rfl

lemma sub_sample_tail (df : List FragmentRecord) (t : ℕ) (sample : ℕ → List FragmentRecord) :
    (sub_sample_fragments df t sample).tail
      = (List.range 10).map
          (fun k => (k + 1, chunk_row (good_cell_barcodes df t) (sample (k + 1)))) := rfl

lemma sub_sample_getD_ten (df : List FragmentRecord) (t : ℕ) (sample : ℕ → List FragmentRecord)
    (d : ℕ × StatsRow) :
    (sub_sample_fragments df t sample).getD 10 d
      = (10, chunk_row (good_cell_barcodes df t) (sample 10)) := rfl

lemma grid_point_lt {M : ℚ} (hM : 0 < M) {i j : ℕ} (hij : i < j) :
    M * (i : ℚ) / 499 < M * (j : ℚ) / 499 := by
  have hc : (i : ℚ) < (j : ℚ) := by exact_mod_cast hij
  rw [div_lt_div_iff₀ (by norm_num : (0:ℚ) < 499) (by norm_num : (0:ℚ) < 499)]
  nlinarith

lemma findIdx_eq_some_of_getD {l : List ℚ} {p : ℚ → Bool} {i : ℕ} (hil : i < l.length)
    (hp : p (l.getD i 0) = true) (hmin : ∀ j, j < i → p (l.getD j 0) = false) :
    l.findIdx? p = some i := by
  rw [List.findIdx?_eq_some_iff_getElem]
  refine ⟨hil, ?_, ?_⟩
  · rw [List.getD_eq_getElem l 0 hil] at hp
    exact hp
  · intro j hji
    have hjl : j < l.length := lt_trans hji hil
    have hj := hmin j hji
    rw [List.getD_eq_getElem l 0 hjl] at hj
    intro hc
    rw [hj] at hc
    cases hc

/-- Claim C7: `MM` returns `Vmax*x/(Km+x)` whenever both `Vmax > 0` and
`Km > 0`, and returns the large sentinel value `1e10` for every parameter
pair in which either parameter is non-positive, for every `x`. -/
theorem MM_spec (x Vmax Km : ℚ) :
    (0 < Vmax → 0 < Km → MM x Vmax Km = Vmax * x / (Km + x))
      ∧ (Vmax ≤ 0 ∨ Km ≤ 0 → MM x Vmax Km = 1e10) :=
  ⟨fun hV hK => MM_of_pos x hV hK, fun h => MM_of_nonpos x h⟩

theorem MM_spec_witness : MM 3 2 1 = 2 * 3 / (1 + 3) ∧ MM 3 (-1) 1 = 1e10 :=
  ⟨(MM_spec 3 2 1).1 (by norm_num) (by norm_num),
    (MM_spec 3 (-1) 1).2 (Or.inl (by norm_num))⟩

/-- Claim C5: the barcode qualifier returns exactly the set of barcodes
whose number of distinct fragment records (table rows, not
duplicate-expanded reads) strictly exceeds `min_unique_fragments`; it is a
pure function of its input, hence deterministic.  On the scenario
population — three barcodes with 5, 250 and 300 records, duplicate count 1
each — and threshold 200 it returns exactly the last two barcodes, so the
good-barcode count is 2. -/
theorem good_cell_barcodes_spec :
    (∀ (df : List FragmentRecord) (t b : ℕ),
        b ∈ good_cell_barcodes df t ↔ t < nbr_frags_per_CBs df b)
      ∧ good_cell_barcodes example_pop 200 = [2, 3]
      ∧ (good_cell_barcodes example_pop 200).length = 2 :=
  ⟨mem_good_cell_barcodes, by decide, by decide⟩

/-- Claim C8: the good-barcode set is antitone in the threshold: for a
fixed population and thresholds `t1 < t2`, every barcode qualifying at
threshold `t2` also qualifies at threshold `t1`. -/
theorem good_cell_barcodes_antitone (df : List FragmentRecord) (t1 t2 : ℕ) (h12 : t1 < t2) :
    ∀ b ∈ good_cell_barcodes df t2, b ∈ good_cell_barcodes df t1 := by
  intro b hb
  rw [mem_good_cell_barcodes] at hb ⊢
  omega

theorem good_cell_barcodes_antitone_witness : (1 : ℕ) ∈ good_cell_barcodes two_record_pop 0 :=
  good_cell_barcodes_antitone two_record_pop 0 1 (by norm_num) 1 (by decide)

/-- Claim C2 counterexample: with the two-record population of barcode 1
and threshold 1, barcode 1 is good; joining an empty drawn sample (the draw
at fraction 0.1 of the two-row expanded population keeps `int(0.2) = 0`
rows) produces the single row `(1, null)`.  The restricted table therefore
contains a row that is not a sampled record with a good barcode — an extra
row for a good barcode with zero sampled records — so the join is not the
inner join the claim describes. -/
theorem left_join_not_inner :
    left_join_good_bc (good_cell_barcodes two_record_pop 1) ([] : List FragmentRecord)
      = [(1, none)] := by decide

/-- Claim C2 (amended): the restriction is a left join from the good
barcodes: every row pairing a barcode with a sampled record carries a good
barcode and a record of the sample with that barcode; every sampled record
whose barcode is good appears as such a row; every sampled record whose
barcode is outside the good set is discarded entirely; and the only other
rows are single null rows, one for each good barcode with no sampled
record. -/
theorem left_join_spec (goods : List ℕ) (sampled : List FragmentRecord) :
    (∀ b r, (b, some r) ∈ left_join_good_bc goods sampled →
        b ∈ goods ∧ r ∈ sampled ∧ r.CellBarcode = b)
      ∧ (∀ r ∈ sampled, r.CellBarcode ∈ goods →
          (r.CellBarcode, some r) ∈ left_join_good_bc goods sampled)
      ∧ (∀ r ∈ sampled, r.CellBarcode ∉ goods →
          ∀ b, (b, some r) ∉ left_join_good_bc goods sampled)
      ∧ (∀ b, (b, (none : Option FragmentRecord)) ∈ left_join_good_bc goods sampled →
          b ∈ goods ∧ ∀ r ∈ sampled, r.CellBarcode ≠ b) := by
  refine ⟨fun b r h => left_join_some_mem h, fun r hr hb => left_join_some_of_mem hr hb,
    ?_, fun b h => left_join_none_mem h⟩
  intro r hr hnb b hmem
  obtain ⟨hbg, -, rfl⟩ := left_join_some_mem hmem
  exact hnb hbg

theorem left_join_spec_witness :
    ((1 : ℕ), some (⟨0, 0, 50, 1, 1⟩ : FragmentRecord))
      ∈ left_join_good_bc [1] [⟨0, 0, 50, 1, 1⟩] :=
  (left_join_spec [1] [⟨0, 0, 50, 1, 1⟩]).2.1 ⟨0, 0, 50, 1, 1⟩ (by decide) (by decide)

/-- Claim C3: whenever the drawn sample at fraction 1.0 is a permutation of
the full duplicate-expanded population — which is what sampling 100%
without replacement yields for every random state — the `total_frag_count`
of the chunk-10 row equals the sum of the duplicate counts of all records
whose barcode is in the good-barcode set.  Duplicate counts are at least 1
per the input contract. -/
theorem total_frag_count_full_fraction (df : List FragmentRecord) (t : ℕ)
    (sample : ℕ → List FragmentRecord) (hperm : (sample 10).Perm (fragments_all df))
    (hcnt : ∀ r ∈ df, 1 ≤ r.FragmentCount) :
    ((sub_sample_fragments df t sample).getD 10 (0, chunk_zero_row)).2.total_frag_count
      = ((df.filter (fun r => decide (r.CellBarcode ∈ good_cell_barcodes df t))).map
          (·.FragmentCount)).sum := by
  rw [sub_sample_getD_ten]
  exact left_join_perm_length hperm hcnt

theorem total_frag_count_full_fraction_witness :
    ((sub_sample_fragments dup_pop 0 (fun _ => fragments_all dup_pop)).getD 10
        (0, chunk_zero_row)).2.total_frag_count = 3 := by
  rw [total_frag_count_full_fraction dup_pop 0 (fun _ => fragments_all dup_pop)
    (List.Perm.refl _) (by decide)]
  decide

/-- Claim C4 counterexample: on a population whose good-barcode set is
nonempty (two records of barcode 1, threshold 1) the produced table has 11
rows — the initialisation row `chunk 0` plus the ten per-fraction rows —
and its `cell_barcode_count` column reads 0 in the initial row but 1 (the
good-barcode count) in the fraction rows: the column is not constant across
the table and one row corresponds to no sampling fraction. -/
theorem stats_table_not_one_row_per_fraction :
    (sub_sample_fragments two_record_pop 1 (fun _ => [])).length = 11
      ∧ (sub_sample_fragments two_record_pop 1 (fun _ => [])).map
          (fun kr => kr.2.cell_barcode_count) = [0, 1, 1, 1, 1, 1, 1, 1, 1, 1, 1] :=
  ⟨by decide, by decide⟩

/-- Claim C4 (amended): for every population, threshold and sampling
oracle, the table's keys are the chunks 0,1,…,10 in order — exactly one row
per sampling fraction plus the initial `chunk 0` row — the initial row is
the all-zero row, and every per-fraction row's `cell_barcode_count` equals
the size of the good-barcode set (the initial row holds the literal 0
instead). -/
theorem stats_table_shape (df : List FragmentRecord) (t : ℕ)
    (sample : ℕ → List FragmentRecord) :
    (sub_sample_fragments df t sample).map Prod.fst = [0, 1, 2, 3, 4, 5, 6, 7, 8, 9, 10]
      ∧ (sub_sample_fragments df t sample).headD (0, chunk_zero_row) = (0, chunk_zero_row)
      ∧ ∀ kr ∈ (sub_sample_fragments df t sample).tail,
          kr.2.cell_barcode_count = (good_cell_barcodes df t).length := by
  refine ⟨sub_sample_keys df t sample, rfl, ?_⟩
  intro kr hkr
  rw [sub_sample_tail, List.mem_map] at hkr
  obtain ⟨k, -, rfl⟩ := hkr
  rfl

theorem stats_table_shape_witness :
    ((4 : ℕ), chunk_row (good_cell_barcodes two_record_pop 1) []).2.cell_barcode_count
      = (good_cell_barcodes two_record_pop 1).length :=
  (stats_table_shape two_record_pop 1 (fun _ => [])).2.2
    (4, chunk_row (good_cell_barcodes two_record_pop 1) [])
    (by rw [sub_sample_tail]; exact List.mem_map.mpr ⟨3, by decide, rfl⟩)

/-- Claim C6: the subsampling engine does not raise on an empty population
(or an empty good-barcode set) — it still produces the statistics table.
For the empty population, the table is the initial all-zero row followed by
ten fraction rows whose counts are 0 and whose mean/median aggregates are
null (the Python aggregations yield nulls, not errors, on the empty frames
involved; nullable statistics are modelled by `Option`).  Likewise,
whenever the good-barcode set is empty, every per-fraction row is that same
zero/null row, for any population and drawn samples. -/
theorem empty_population_stats :
    (sub_sample_fragments [] 200 (fun _ => [])
        = (0, chunk_zero_row)
          :: (List.range 10).map (fun k => (k + 1, ⟨none, none, 0, 0⟩)))
      ∧ ∀ (df : List FragmentRecord) (t : ℕ) (sample : ℕ → List FragmentRecord),
          good_cell_barcodes df t = [] →
          ∀ kr ∈ (sub_sample_fragments df t sample).tail,
            kr.2 = (⟨none, none, 0, 0⟩ : StatsRow) := by
  constructor
  · rfl
  · intro df t sample hg kr hkr
    rw [sub_sample_tail, List.mem_map] at hkr
    obtain ⟨k, -, rfl⟩ := hkr
    show chunk_row (good_cell_barcodes df t) (sample (k + 1)) = _
    rw [hg]
    rfl

theorem empty_population_stats_witness :
    ((3 : ℕ), chunk_row (good_cell_barcodes one_record_pop 5) []).2
      = (⟨none, none, 0, 0⟩ : StatsRow) :=
  empty_population_stats.2 one_record_pop 5 (fun _ => []) (by decide)
    (3, chunk_row (good_cell_barcodes one_record_pop 5) [])
    (by rw [sub_sample_tail]; exact List.mem_map.mpr ⟨2, by decide, rfl⟩)

/-- Claim C1 counterexample: with fitted parameters `Vmax = 20`, `Km = 1`
and grid bound `M = 100`, the dense extrapolation grid reaches
`Vmax*0.95 = 19` (already at grid point 95), yet the lookup for the
requested percentage `p = 0.95` returns nothing: the 95% truncation removes
every curve point at or above 19, so the strict resolution guard fails and
the percentage is skipped even though the grid reaches `Vmax*p`. -/
theorem percentage_inversion_cex :
    fit_MM_lookup 100 20 1 0.95 = none
      ∧ 20 * (0.95 : ℚ) ≤ MM (100 * ((95 : ℕ) : ℚ) / 499) 20 1 := by
  constructor
  · exact fit_MM_lookup_none_of_ge95 (by norm_num) (by norm_num) (le_refl _)
  · rw [MM_of_pos _ (by norm_num) (by norm_num)]
    norm_num

/-- Claim C1 (amended): for positive fitted parameters and a nonnegative
grid bound, whenever the lookup resolves a requested percentage `p` it
returns the smallest grid point at which the fitted curve is at least
`Vmax*p`, together with the curve value at that point; and whenever the
grid never reaches `Vmax*p` the percentage is skipped (`none`) without
failing.  Resolution happens only when the 95%-truncated curve strictly
exceeds `Vmax*p`: a reachable target at or beyond the truncated maximum is
also skipped, as the counterexample shows. -/
theorem percentage_inversion_spec (M Vmax Km p : ℚ) (hV : 0 < Vmax) (hK : 0 < Km)
    (hM : 0 ≤ M) :
    (∀ x y, fit_MM_lookup M Vmax Km p = some (x, y) →
        (∃ i : ℕ, i < 500 ∧ x = M * (i : ℚ) / 499) ∧ y = MM x Vmax Km ∧ Vmax * p ≤ y ∧
          ∀ j : ℕ, j < 500 → Vmax * p ≤ MM (M * (j : ℚ) / 499) Vmax Km →
            x ≤ M * (j : ℚ) / 499)
      ∧ ((∀ y ∈ y_fit_grid M Vmax Km, y < Vmax * p) → fit_MM_lookup M Vmax Km p = none) := by
  constructor
  · intro x y h
    obtain ⟨i, hi, hx, hy, hge, hmin⟩ := fit_MM_lookup_some_spec hV hK hM h
    exact ⟨⟨i, hi, hx⟩, hy, hge, hmin⟩
  · exact fit_MM_lookup_none_of_never hV hK

theorem percentage_inversion_spec_witness : fit_MM_lookup 1 2 1 2 = none :=
  (percentage_inversion_spec 1 2 1 2 (by norm_num) (by norm_num) (by norm_num)).2
    (fun y hy =>
      lt_of_lt_of_le (y_fit_mem_lt_Vmax (by norm_num) (by norm_num) (by norm_num) y hy)
        (by norm_num))

/-- Claim C9 counterexample: with `Vmax = 20`, `Km = 100/19` and `M = 100`,
the curve's last grid point reaches `0.95*Vmax = 19` exactly (index 499 is
the first grid point where the curve reaches it), yet `fit_MM` leaves the
curve entirely untruncated, because its guard demands a value strictly
above `0.95*Vmax`.  The claim's description — truncation to the points
strictly before the first grid point where the curve reaches `0.95*Vmax` —
is therefore false at this input: that would keep only 499 points. -/
theorem truncation_boundary_cex :
    truncate95 (x_fit 100) (y_fit_grid 100 20 (100 / 19)) 20
        = (x_fit 100, y_fit_grid 100 20 (100 / 19))
      ∧ (y_fit_grid 100 20 (100 / 19)).findIdx? (fun y => decide (20 * (0.95 : ℚ) ≤ y))
          = some 499 := by
  have hV : (0:ℚ) < 20 := by norm_num
  have hK : (0:ℚ) < 100 / 19 := by norm_num
  have hMM100 : MM 100 20 (100 / 19) = 19 := by
    rw [MM_of_pos _ hV hK]
    norm_num
  have hmax : maxQ (y_fit_grid 100 20 (100 / 19)) ≤ 19 := by
    apply maxQ_le (y_fit_ne_nil _ _ _)
    intro y hy
    calc y ≤ MM 100 20 (100 / 19) := y_fit_mem_le_MM_M hV hK (by norm_num) y hy
    _ = 19 := hMM100
  constructor
  · apply truncate95_of_le
    rw [show (20:ℚ) * 0.95 = 19 by norm_num]
    exact not_lt.mpr hmax
  · apply findIdx_eq_some_of_getD
    · rw [y_fit_length]
      norm_num
    · rw [y_fit_getD _ _ _ (by norm_num : (499:ℕ) < 500)]
      apply decide_eq_true
      rw [show (100:ℚ) * ((499:ℕ):ℚ) / 499 = 100 by norm_num, hMM100]
      norm_num
    · intro j hj
      rw [y_fit_getD _ _ _ (lt_trans hj (by norm_num))]
      apply decide_eq_false
      rw [not_le]
      have hx : (100:ℚ) * (j:ℚ) / 499 < 100 := by
        have h1 := grid_point_lt (by norm_num : (0:ℚ) < 100) hj
        rw [show (100:ℚ) * ((499:ℕ):ℚ) / 499 = 100 by norm_num] at h1
        exact h1
      have h2 := MM_lt_MM hV hK (grid_point_nonneg (by norm_num) j) hx
      rw [hMM100] at h2
      rw [show (20:ℚ) * 0.95 = 19 by norm_num]
      exact h2

/-- Claim C9 (amended): for positive fitted parameters, when some grid
value strictly exceeds `0.95*Vmax` the curve is truncated to the take-prefix
ending strictly before the first grid point whose value reaches
`0.95*Vmax`, so every kept value is below `0.95*Vmax` (when no grid value
strictly exceeds `0.95*Vmax` — e.g. the exact-equality counterexample — the
curve is left whole).  The percentage inversion runs on this truncated
curve, and every requested percentage `p` with `Vmax*p` at or above the
truncated curve's maximum — in particular every `p ≥ 0.95` — is never
resolved, even when the untruncated grid reaches `Vmax*p`. -/
theorem truncation_spec (M Vmax Km : ℚ) (hV : 0 < Vmax) (hK : 0 < Km) :
    (Vmax * 0.95 < maxQ (y_fit_grid M Vmax Km) →
        (truncate95 (x_fit M) (y_fit_grid M Vmax Km) Vmax).2
            = (y_fit_grid M Vmax Km).take
                ((y_fit_grid M Vmax Km).findIdx (fun y => decide (Vmax * 0.95 ≤ y)))
          ∧ ∀ y ∈ (truncate95 (x_fit M) (y_fit_grid M Vmax Km) Vmax).2, y < Vmax * 0.95)
      ∧ (∀ p, maxQ ((truncate95 (x_fit M) (y_fit_grid M Vmax Km) Vmax).2) ≤ Vmax * p →
          fit_MM_lookup M Vmax Km p = none)
      ∧ (∀ p, 0.95 ≤ p → fit_MM_lookup M Vmax Km p = none) :=
  ⟨fun h => ⟨by rw [truncate95_of_lt _ _ _ h], mem_truncate95_snd_lt h⟩,
    fun _ hp => fit_MM_lookup_none_of_max_le hp,
    fun _ hp => fit_MM_lookup_none_of_ge95 hV hK hp⟩

theorem truncation_spec_witness : fit_MM_lookup 100 20 1 0.95 = none :=
  (truncation_spec 100 20 1 (by norm_num) (by norm_num)).2.2 0.95 (le_refl _)

/-- Claim C10: the "current saturation" marker lookup
`np.where(y_fit >= max(y_data))[0][0]` of `fit_MM` has no emptiness guard:
for every input whose maximum observed y value exceeds every value of the
(possibly truncated) fitted curve, the where-array is empty and the
indexing raises an unhandled IndexError — modelled here by the lookup
being `none` instead of an index.  Moreover, whenever truncation occurred,
this situation arises as soon as `max(y_data) ≥ 0.95*Vmax`, since every
kept curve value lies strictly below `0.95*Vmax`. -/
theorem current_saturation_marker_unguarded (M Vmax Km ymax : ℚ) :
    ((∀ y ∈ (truncate95 (x_fit M) (y_fit_grid M Vmax Km) Vmax).2, y < ymax) →
        current_saturation_idx ((truncate95 (x_fit M) (y_fit_grid M Vmax Km) Vmax).2) ymax
          = none)
      ∧ (Vmax * 0.95 < maxQ (y_fit_grid M Vmax Km) → Vmax * 0.95 ≤ ymax →
          ∀ y ∈ (truncate95 (x_fit M) (y_fit_grid M Vmax Km) Vmax).2, y < ymax) := by
  constructor
  · intro h
    rw [current_saturation_idx]
    apply List.findIdx?_eq_none_iff.mpr
    intro y hy
    simp only [decide_eq_false_iff_not, not_le]
    exact h y hy
  · intro htr hge y hy
    exact lt_of_lt_of_le (mem_truncate95_snd_lt htr y hy) hge

theorem current_saturation_marker_unguarded_witness :
    current_saturation_idx ((truncate95 (x_fit 100) (y_fit_grid 100 20 1) 20).2) 19
      = none := by
  refine (current_saturation_marker_unguarded 100 20 1 19).1
    ((current_saturation_marker_unguarded 100 20 1 19).2 ?_ (by norm_num))
  have h499 : (19:ℚ) < (y_fit_grid 100 20 1).getD 499 0 := by
    rw [y_fit_getD _ _ _ (by norm_num : (499:ℕ) < 500), MM_of_pos _ (by norm_num) (by norm_num)]
    norm_num
  have hmem : (y_fit_grid 100 20 1).getD 499 0 ∈ y_fit_grid 100 20 1 := by
    rw [List.getD_eq_getElem _ 0 (by rw [y_fit_length]; norm_num)]
    exact List.getElem_mem _
  calc 20 * (0.95:ℚ) = 19 := by norm_num
  _ < (y_fit_grid 100 20 1).getD 499 0 := h499
  _ ≤ maxQ (y_fit_grid 100 20 1) := le_maxQ hmem
